import Mathlib

/-!
Verification of the Aave-Liquiditor monitoring/liquidation core against its
natural-language specification.

Shallow embedding conventions:
* TypeScript `bigint` is embedded as `Int`; JavaScript BigInt division
  truncates toward zero, which is `Int.tdiv`.
* Token decimal counts (`debtDecimals`, `colDecimals`) are embedded as `Nat`
  (they are on-chain `uint8` reserve-configuration values).
* A TypeScript function that can `throw` is embedded as `Except String _`.
* The float `profitUsdApprox = Number(profitBase) / Number(baseUnit)` is
  embedded as the exact rational `profitBase / baseUnit : ℚ`; it is used only
  for ranking, never in the integer path.
-/

namespace AaveLiq

/-! ## src/liquidation/math.ts -/

/-- `minBigInt(a, b)` from src/liquidation/math.ts: `a < b ? a : b`. -/
def minBigInt (a b : Int) : Int :=
  if a < b then a else b

/-- `pow10(decimals)` from src/liquidation/math.ts: `10n ** BigInt(decimals)`. -/
def pow10 (decimals : Nat) : Int :=
  10 ^ decimals

/-- Argument record of `computeMaxRepay` (src/liquidation/math.ts). -/
structure MaxRepayArgs where
  debtAmount : Int
  closeFactorBps : Int
  collateralBalance : Int
  priceDebt : Int
  priceCol : Int
  liquidationBonusBps : Int
  debtDecimals : Nat
  colDecimals : Nat
  deriving Repr, DecidableEq

/-- The error message thrown by `computeMaxRepay` on invalid input. -/
def invalidInputMsg : String :=
  "priceDebt, priceCol, liquidationBonusBps and collateralBalance must be positive"

/-- `computeMaxRepay` from src/liquidation/math.ts.  Throws when
`priceDebt <= 0n || priceCol <= 0n || liquidationBonusBps <= 0n ||
collateralBalance <= 0n`; otherwise returns
`min(debtAmount * closeFactorBps / 10000,
     collateralBalance * priceCol * 10000 * 10^debtDecimals /
       (priceDebt * liquidationBonusBps * 10^colDecimals))`
with BigInt (truncating) division. -/
def computeMaxRepay (args : MaxRepayArgs) : Except String Int :=
  if args.priceDebt ≤ 0 ∨ args.priceCol ≤ 0 ∨ args.liquidationBonusBps ≤ 0 ∨
      args.collateralBalance ≤ 0 then
    .error invalidInputMsg
  else
    let maxByCloseFactor := Int.tdiv (args.debtAmount * args.closeFactorBps) 10000
    let debtScale := pow10 args.debtDecimals
    let colScale := pow10 args.colDecimals
    let maxByCollateral :=
      Int.tdiv (args.collateralBalance * args.priceCol * 10000 * debtScale)
        (args.priceDebt * args.liquidationBonusBps * colScale)
    .ok (minBigInt maxByCloseFactor maxByCollateral)

/-! ## src/liquidation/profit.ts -/

/-- `ProfitInputs` from src/liquidation/profit.ts.  The optional cost-model
fields `dexFeeBps?` and `extraCostBase?` are embedded as `Option Int` and
defaulted to `0` inside `evaluateProfit`, mirroring the destructuring
defaults in the source. -/
structure ProfitInputs where
  debtAmount : Int
  collateralBalance : Int
  priceDebt : Int
  priceCol : Int
  baseUnit : Int
  closeFactorBps : Int
  liquidationBonusBps : Int
  dexFeeBps : Option Int := none
  extraCostBase : Option Int := none
  debtDecimals : Nat
  colDecimals : Nat
  deriving Repr, DecidableEq

/-- `ProfitResult` from src/liquidation/profit.ts.  `profitUsdApprox` is the
float `Number(profitBase) / Number(baseUnit)`, embedded as an exact rational. -/
structure ProfitResult where
  repayAmount : Int
  profitBase : Int
  profitUsdApprox : ℚ
  deriving DecidableEq

/-- `evaluateProfit` from src/liquidation/profit.ts: calls `computeMaxRepay`,
then `repayValueBase = repayAmount * priceDebt / 10^debtDecimals`,
`seizedValueBase = repayValueBase * liquidationBonusBps / 10000`,
`feeBase = repayValueBase * dexFeeBps / 10000`,
`profitBase = seizedValueBase - repayValueBase - feeBase - extraCostBase`. -/
def evaluateProfit (args : ProfitInputs) : Except String ProfitResult :=
  let dexFeeBps := args.dexFeeBps.getD 0
  let extraCostBase := args.extraCostBase.getD 0
  match computeMaxRepay
      { debtAmount := args.debtAmount
        closeFactorBps := args.closeFactorBps
        collateralBalance := args.collateralBalance
        priceDebt := args.priceDebt
        priceCol := args.priceCol
        liquidationBonusBps := args.liquidationBonusBps
        debtDecimals := args.debtDecimals
        colDecimals := args.colDecimals } with
  | .error e => .error e
  | .ok repayAmount =>
    let repayValueBase := Int.tdiv (repayAmount * args.priceDebt) (pow10 args.debtDecimals)
    let seizedValueBase := Int.tdiv (repayValueBase * args.liquidationBonusBps) 10000
    let feeBase := Int.tdiv (repayValueBase * dexFeeBps) 10000
    let profitBase := seizedValueBase - repayValueBase - feeBase - extraCostBase
    .ok { repayAmount := repayAmount
          profitBase := profitBase
          profitUsdApprox := (profitBase : ℚ) / (args.baseUnit : ℚ) }

/-- The source's `minBigInt` agrees with the order-theoretic `min` on `Int`. -/
theorem minBigInt_eq_min (a b : Int) : minBigInt a b = min a b := by
  unfold minBigInt
  rcases lt_trichotomy a b with h | h | h
  · rw [if_pos h, min_eq_left h.le]
  · subst h; simp
  · rw [if_neg (by omega), min_eq_right h.le]

theorem computeMaxRepay_ok (args : MaxRepayArgs)
    (hd : 0 < args.priceDebt) (hc : 0 < args.priceCol)
    (hb : 0 < args.liquidationBonusBps) (hcb : 0 < args.collateralBalance) :
    computeMaxRepay args =
      .ok (min (Int.tdiv (args.debtAmount * args.closeFactorBps) 10000)
        (Int.tdiv (args.collateralBalance * args.priceCol * 10000 * 10 ^ args.debtDecimals)
          (args.priceDebt * args.liquidationBonusBps * 10 ^ args.colDecimals))) := by
  unfold computeMaxRepay
  rw [if_neg (by push_neg; exact ⟨hd, hc, hb, hcb⟩)]
  simp only [minBigInt_eq_min, pow10]

/-- Claim C1: for every input record satisfying the preconditions
(`priceDebt > 0`, `priceCol > 0`, `liquidationBonusBps > 0`,
`collateralBalance > 0`), `computeMaxRepay` returns exactly
`min(debtAmount * closeFactorBps / 10000,
collateralBalance * priceCol * 10000 * 10^debtDecimals /
(priceDebt * liquidationBonusBps * 10^colDecimals))`, with both divisions
truncating toward zero (`Int.tdiv`). -/
theorem computeMaxRepay_formula (args : MaxRepayArgs)
    (hd : 0 < args.priceDebt) (hc : 0 < args.priceCol)
    (hb : 0 < args.liquidationBonusBps) (hcb : 0 < args.collateralBalance) :
    computeMaxRepay args =
      .ok (min (Int.tdiv (args.debtAmount * args.closeFactorBps) 10000)
        (Int.tdiv (args.collateralBalance * args.priceCol * 10000 * 10 ^ args.debtDecimals)
          (args.priceDebt * args.liquidationBonusBps * 10 ^ args.colDecimals))) :=
  computeMaxRepay_ok args hd hc hb hcb

/-- Witness for C1 at the spec §8 end-to-end example: `debtAmount = 1000e6`
(6 decimals), `collateralBalance = 2000e18` (18 decimals),
`priceDebt = 1e8`, `priceCol = 2000e8`, `closeFactorBps = 5000`,
`liquidationBonusBps = 10500`; the result is the close-factor bound `500e6`. -/
theorem computeMaxRepay_formula_witness :
    computeMaxRepay
        { debtAmount := 1000 * 10 ^ 6
          closeFactorBps := 5000
          collateralBalance := 2000 * 10 ^ 18
          priceDebt := 10 ^ 8
          priceCol := 2000 * 10 ^ 8
          liquidationBonusBps := 10500
          debtDecimals := 6
          colDecimals := 18 } =
      .ok (min (Int.tdiv ((1000 * 10 ^ 6 : Int) * 5000) 10000)
        (Int.tdiv ((2000 * 10 ^ 18 : Int) * (2000 * 10 ^ 8) * 10000 * 10 ^ 6)
          ((10 ^ 8 : Int) * 10500 * 10 ^ 18))) ∧
      computeMaxRepay
        { debtAmount := 1000 * 10 ^ 6
          closeFactorBps := 5000
          collateralBalance := 2000 * 10 ^ 18
          priceDebt := 10 ^ 8
          priceCol := 2000 * 10 ^ 8
          liquidationBonusBps := 10500
          debtDecimals := 6
          colDecimals := 18 } = .ok (500 * 10 ^ 6) := by
  constructor
  · exact computeMaxRepay_formula _ (by decide) (by decide) (by decide) (by decide)
  · rfl

/-- Claim C2: `computeMaxRepay` fails with the invalid-input error if and only
if at least one of `priceDebt ≤ 0`, `priceCol ≤ 0`, `liquidationBonusBps ≤ 0`,
`collateralBalance ≤ 0` holds (so it never silently returns zero on a
violation), and under the preconditions it returns an ordinary result (never
throws). -/
theorem computeMaxRepay_error_iff (args : MaxRepayArgs) :
    (computeMaxRepay args = .error invalidInputMsg ↔
      (args.priceDebt ≤ 0 ∨ args.priceCol ≤ 0 ∨ args.liquidationBonusBps ≤ 0 ∨
        args.collateralBalance ≤ 0)) ∧
    (¬ (args.priceDebt ≤ 0 ∨ args.priceCol ≤ 0 ∨ args.liquidationBonusBps ≤ 0 ∨
        args.collateralBalance ≤ 0) →
      ∃ r, computeMaxRepay args = .ok r) := by
  unfold computeMaxRepay
  by_cases h : args.priceDebt ≤ 0 ∨ args.priceCol ≤ 0 ∨ args.liquidationBonusBps ≤ 0 ∨
      args.collateralBalance ≤ 0
  · rw [if_pos h]
    exact ⟨⟨fun _ => h, fun _ => rfl⟩, fun hn => absurd h hn⟩
  · rw [if_neg h]
    refine ⟨⟨fun he => ?_, fun hc => absurd hc h⟩, fun _ => ⟨_, rfl⟩⟩
    exact absurd he (by simp)

/-- Witness for C2: at a violating input (`priceDebt = 0`) the function fails
with the invalid-input error, and at a valid input it returns a result. -/
theorem computeMaxRepay_error_iff_witness :
    computeMaxRepay
        { debtAmount := 5, closeFactorBps := 5000, collateralBalance := 7,
          priceDebt := 0, priceCol := 3, liquidationBonusBps := 10500,
          debtDecimals := 6, colDecimals := 18 } = .error invalidInputMsg ∧
    ∃ r, computeMaxRepay
        { debtAmount := 5, closeFactorBps := 5000, collateralBalance := 7,
          priceDebt := 2, priceCol := 3, liquidationBonusBps := 10500,
          debtDecimals := 6, colDecimals := 18 } = .ok r := by
  constructor
  · exact (computeMaxRepay_error_iff _).1.mpr (by decide)
  · exact (computeMaxRepay_error_iff _).2 (by decide)

/-- Claim C3: under `computeMaxRepay`'s preconditions, `evaluateProfit`
returns `repayAmount` equal to `computeMaxRepay` of the same arguments, and
`profitBase = seizedValueBase - repayValueBase - feeBase - extraCostBase` with
`repayValueBase = repayAmount * priceDebt / 10^debtDecimals`,
`seizedValueBase = repayValueBase * liquidationBonusBps / 10000`,
`feeBase = repayValueBase * dexFeeBps / 10000`, `dexFeeBps` and
`extraCostBase` defaulting to `0`, all divisions truncating toward zero. -/
theorem evaluateProfit_formula (args : ProfitInputs)
    (hd : 0 < args.priceDebt) (hc : 0 < args.priceCol)
    (hb : 0 < args.liquidationBonusBps) (hcb : 0 < args.collateralBalance) :
    ∃ r, computeMaxRepay
        { debtAmount := args.debtAmount
          closeFactorBps := args.closeFactorBps
          collateralBalance := args.collateralBalance
          priceDebt := args.priceDebt
          priceCol := args.priceCol
          liquidationBonusBps := args.liquidationBonusBps
          debtDecimals := args.debtDecimals
          colDecimals := args.colDecimals } = .ok r ∧
      evaluateProfit args =
        .ok { repayAmount := r
              profitBase :=
                Int.tdiv (Int.tdiv (r * args.priceDebt) (10 ^ args.debtDecimals) *
                    args.liquidationBonusBps) 10000 -
                  Int.tdiv (r * args.priceDebt) (10 ^ args.debtDecimals) -
                  Int.tdiv (Int.tdiv (r * args.priceDebt) (10 ^ args.debtDecimals) *
                    args.dexFeeBps.getD 0) 10000 -
                  args.extraCostBase.getD 0
              profitUsdApprox :=
                ((Int.tdiv (Int.tdiv (r * args.priceDebt) (10 ^ args.debtDecimals) *
                    args.liquidationBonusBps) 10000 -
                  Int.tdiv (r * args.priceDebt) (10 ^ args.debtDecimals) -
                  Int.tdiv (Int.tdiv (r * args.priceDebt) (10 ^ args.debtDecimals) *
                    args.dexFeeBps.getD 0) 10000 -
                  args.extraCostBase.getD 0 : Int) : ℚ) / (args.baseUnit : ℚ) } := by
  refine ⟨_, computeMaxRepay_ok _ hd hc hb hcb, ?_⟩
  unfold evaluateProfit
  rw [computeMaxRepay_ok _ hd hc hb hcb]
  rfl

/-- Witness for C3 at the spec §8 end-to-end example (`dexFeeBps = 30`):
`repayAmount = 500e6` and `profitBase = 52.5e9 - 50e9 - 0.15e9 = 2.35e9`. -/
theorem evaluateProfit_formula_witness :
    ∃ r, computeMaxRepay
        { debtAmount := 1000 * 10 ^ 6
          closeFactorBps := 5000
          collateralBalance := 2000 * 10 ^ 18
          priceDebt := 10 ^ 8
          priceCol := 2000 * 10 ^ 8
          liquidationBonusBps := 10500
          debtDecimals := 6
          colDecimals := 18 } = .ok r ∧
      evaluateProfit
        { debtAmount := 1000 * 10 ^ 6
          collateralBalance := 2000 * 10 ^ 18
          priceDebt := 10 ^ 8
          priceCol := 2000 * 10 ^ 8
          baseUnit := 10 ^ 8
          closeFactorBps := 5000
          liquidationBonusBps := 10500
          dexFeeBps := some 30
          extraCostBase := none
          debtDecimals := 6
          colDecimals := 18 } =
        .ok { repayAmount := r
              profitBase :=
                Int.tdiv (Int.tdiv (r * 10 ^ 8) (10 ^ 6) * 10500) 10000 -
                  Int.tdiv (r * 10 ^ 8) (10 ^ 6) -
                  Int.tdiv (Int.tdiv (r * 10 ^ 8) (10 ^ 6) * (some (30 : Int)).getD 0) 10000 -
                  (none : Option Int).getD 0
              profitUsdApprox :=
                ((Int.tdiv (Int.tdiv (r * 10 ^ 8) (10 ^ 6) * 10500) 10000 -
                  Int.tdiv (r * 10 ^ 8) (10 ^ 6) -
                  Int.tdiv (Int.tdiv (r * 10 ^ 8) (10 ^ 6) * (some (30 : Int)).getD 0) 10000 -
                  (none : Option Int).getD 0 : Int) : ℚ) / ((10 ^ 8 : Int) : ℚ) } :=
  evaluateProfit_formula
    { debtAmount := 1000 * 10 ^ 6
      collateralBalance := 2000 * 10 ^ 18
      priceDebt := 10 ^ 8
      priceCol := 2000 * 10 ^ 8
      baseUnit := 10 ^ 8
      closeFactorBps := 5000
      liquidationBonusBps := 10500
      dexFeeBps := some 30
      extraCostBase := none
      debtDecimals := 6
      colDecimals := 18 } (by decide) (by decide) (by decide) (by decide)

/-! ## RotatingRpcProvider (src/unnamed/part_000)

`_perform` tries `backends[(activeIndex + hop) % N]` for `hop = 0 .. N-1`.
On success it records the probed index as the new active index and returns
the result; on a 429-classified error it saves the error and continues to
the next hop; on any other error it rethrows at once; after a full rotation
it rethrows the last saved error.  One call is embedded as a function of the
per-backend outcomes (`behav i` = what backend `i` does for this request),
the backend count and the current `activeIndex`; since `activeIndex` is the
provider's only mutable state, any sequence of `perform` calls is obtained
by threading `newActive` into the next call. -/

/-- Outcome of attempting one request against one backend: a successful
result, a 429-classified (`is429`) failure, or any other error. -/
inductive RpcOutcome where
  | success (v : Nat)
  | rateLimited (e : Nat)
  | otherError (e : Nat)
  deriving Repr, DecidableEq

/-- Result of one `_perform` call: the provider's `activeIndex` after the
call, the list of backend indices probed (in order), and either the returned
value or the thrown error (`none` models the `undefined` `lastErr` thrown
when the provider list is empty). -/
structure PerformResult where
  newActive : Nat
  probed : List Nat
  result : Except (Option Nat) Nat
  deriving Repr

/-- The `for (hop …)` loop of `RotatingRpcProvider._perform`, with `fuel`
hops remaining (initially `n`, one full rotation) and `lastErr` the error
saved by the most recent rate-limited attempt. -/
def performAux (behav : Nat → RpcOutcome) (n active : Nat) :
    Nat → Nat → Option Nat → PerformResult
  | _, 0, lastErr => ⟨active, [], .error lastErr⟩
  | hop, fuel + 1, lastErr =>
    match behav ((active + hop) % n) with
    | .success v => ⟨(active + hop) % n, [(active + hop) % n], .ok v⟩
    | .rateLimited e =>
      ⟨(performAux behav n active (hop + 1) fuel (some e)).newActive,
        ((active + hop) % n) :: (performAux behav n active (hop + 1) fuel (some e)).probed,
        (performAux behav n active (hop + 1) fuel (some e)).result⟩
    | .otherError e => ⟨active, [(active + hop) % n], .error (some e)⟩

/-- `RotatingRpcProvider._perform`: one logical read against `n` backends
starting from `activeIndex = active`. -/
def perform (behav : Nat → RpcOutcome) (n active : Nat) : PerformResult :=
  performAux behav n active 0 n none

theorem performAux_ok (behav : Nat → RpcOutcome) (n active : Nat) :
    ∀ fuel hop lastErr v,
      (performAux behav n active hop fuel lastErr).result = .ok v →
      behav (performAux behav n active hop fuel lastErr).newActive = .success v := by
  intro fuel
  induction fuel with
  | zero => intro hop lastErr v h; exact absurd h (by simp [performAux])
  | succ fuel ih =>
    intro hop lastErr v h
    unfold performAux at h ⊢
    rcases hb : behav ((active + hop) % n) with w | e | e
    · rw [hb] at h
      dsimp only at h ⊢
      injection h with h
      rw [hb, h]
    · rw [hb] at h
      dsimp only at h ⊢
      exact ih (hop + 1) (some e) v h
    · rw [hb] at h
      dsimp only at h ⊢
      exact absurd h (by simp)

theorem performAux_error (behav : Nat → RpcOutcome) (n active : Nat) :
    ∀ fuel hop lastErr e,
      (performAux behav n active hop fuel lastErr).result = .error e →
      (performAux behav n active hop fuel lastErr).newActive = active := by
  intro fuel
  induction fuel with
  | zero => intro hop lastErr e _; rfl
  | succ fuel ih =>
    intro hop lastErr e h
    unfold performAux at h ⊢
    rcases hb : behav ((active + hop) % n) with w | e' | e'
    · rw [hb] at h
      dsimp only at h ⊢
      exact absurd h (by simp)
    · rw [hb] at h
      dsimp only at h ⊢
      exact ih (hop + 1) (some e') e h
    · rw [hb] at h

/-- Claim C4: `activeIndex` changes only when a backend returns a successful
result, and then to that backend's index (on a failed call it is unchanged);
a backend that just rate-limited never becomes active.  In particular, with
backends `[B0, B1, B2]` where `B0` rate-limits and `B1` succeeds, starting at
`activeIndex = 0`, `perform` probes `[0, 1]`, returns `B1`'s result and sets
`activeIndex = 1`; a subsequent call starting at `activeIndex = 1` probes
only `[1]`, i.e. goes directly to `B1` without probing `B0`. -/
theorem perform_activeIndex_invariant (behav : Nat → RpcOutcome) (n active : Nat) :
    (∀ v, (perform behav n active).result = .ok v →
      behav (perform behav n active).newActive = .success v) ∧
    (∀ e, (perform behav n active).result = .error e →
      (perform behav n active).newActive = active) ∧
    (∀ (b : Nat → RpcOutcome) (e v : Nat),
      b 0 = .rateLimited e → b 1 = .success v →
      perform b 3 0 = ⟨1, [0, 1], .ok v⟩ ∧ perform b 3 1 = ⟨1, [1], .ok v⟩) := by
  refine ⟨fun v h => performAux_ok behav n active n 0 none v h,
    fun e h => performAux_error behav n active n 0 none e h, ?_⟩
  intro b e v h0 h1
  constructor
  · show performAux b 3 0 0 3 none = _
    unfold performAux
    norm_num [h0]
    unfold performAux
    norm_num [h1]
  · show performAux b 3 1 0 3 none = _
    unfold performAux
    norm_num [h1]

/-- Witness for C4: a concrete behaviour where backend 0 rate-limits with
error 5, backend 1 succeeds with value 42, and backend 2 other-errors. -/
theorem perform_activeIndex_invariant_witness :
    perform
        (fun i => if i = 0 then .rateLimited 5 else
          if i = 1 then .success 42 else .otherError 9) 3 0 =
      ⟨1, [0, 1], .ok 42⟩ ∧
    perform
        (fun i => if i = 0 then .rateLimited 5 else
          if i = 1 then .success 42 else .otherError 9) 3 1 =
      ⟨1, [1], .ok 42⟩ :=
  (perform_activeIndex_invariant (fun _ => .success 0) 0 0).2.2
    (fun i => if i = 0 then .rateLimited 5 else
      if i = 1 then .success 42 else .otherError 9) 5 42 rfl rfl

theorem performAux_allRateLimited (behav : Nat → RpcOutcome) (n active : Nat)
    (errs : Nat → Nat) :
    ∀ fuel hop lastErr,
      (∀ i, hop ≤ i → i < hop + fuel → behav ((active + i) % n) = .rateLimited (errs i)) →
      performAux behav n active hop fuel lastErr =
        ⟨active, (List.range' hop fuel).map (fun i => (active + i) % n),
          .error (match fuel with | 0 => lastErr | _ + 1 => some (errs (hop + fuel - 1)))⟩ := by
  intro fuel
  induction fuel with
  | zero => intro hop lastErr _; rfl
  | succ fuel ih =>
    intro hop lastErr hrl
    unfold performAux
    rw [hrl hop le_rfl (by omega)]
    dsimp only
    rw [ih (hop + 1) (some (errs hop))
      (fun i h1 h2 => hrl i (by omega) (by omega))]
    simp only [List.range'_succ, List.map_cons]
    cases fuel with
    | zero => rfl
    | succ fuel =>
      have hr : hop + 1 + (fuel + 1) - 1 = hop + (fuel + 1 + 1) - 1 := by omega
      rw [hr]

theorem performAux_otherError (behav : Nat → RpcOutcome) (n active : Nat) (e : Nat) :
    ∀ fuel hop lastErr k, hop ≤ k → k < hop + fuel →
      (∀ i, hop ≤ i → i < k → ∃ ei, behav ((active + i) % n) = .rateLimited ei) →
      behav ((active + k) % n) = .otherError e →
      performAux behav n active hop fuel lastErr =
        ⟨active, (List.range' hop (k + 1 - hop)).map (fun i => (active + i) % n),
          .error (some e)⟩ := by
  intro fuel
  induction fuel with
  | zero => intro hop lastErr k h1 h2; omega
  | succ fuel ih =>
    intro hop lastErr k h1 h2 hrl hk
    unfold performAux
    rcases Nat.eq_or_lt_of_le h1 with h | h
    · subst h
      rw [hk]
      have hr : hop + 1 - hop = 1 := by omega
      rw [hr]
      rfl
    · obtain ⟨ei, hei⟩ := hrl hop le_rfl h
      rw [hei]
      dsimp only
      rw [ih (hop + 1) (some ei) k h (by omega)
        (fun i hi1 hi2 => hrl i (by omega) hi2) hk]
      have hr : k + 1 - hop = (k + 1 - (hop + 1)) + 1 := by omega
      rw [hr, List.range'_succ, List.map_cons]

/-- Claim C5: if during one `perform` call all `n` backends fail with a
rate-limit-classified error in sequence (one full rotation starting at
`activeIndex`), the call fails with the last observed error — the one from
backend `(active + n - 1) % n` — and `activeIndex` is unchanged; and a
non-rate-limit error from the backend probed after `k` rate-limited attempts
propagates immediately (the rotation stops at that backend). -/
theorem perform_exhausted_rotation (behav : Nat → RpcOutcome) (n active : Nat)
    (errs : Nat → Nat) :
    (0 < n →
      (∀ i, i < n → behav ((active + i) % n) = .rateLimited (errs i)) →
      perform behav n active =
        ⟨active, (List.range' 0 n).map (fun i => (active + i) % n),
          .error (some (errs (n - 1)))⟩) ∧
    (∀ (e k : Nat), k < n →
      (∀ i, i < k → ∃ ei, behav ((active + i) % n) = .rateLimited ei) →
      behav ((active + k) % n) = .otherError e →
      perform behav n active =
        ⟨active, (List.range' 0 (k + 1)).map (fun i => (active + i) % n),
          .error (some e)⟩) := by
  constructor
  · intro hn hrl
    unfold perform
    rw [performAux_allRateLimited behav n active errs n 0 none
      (fun i h1 h2 => hrl i (by omega))]
    rcases n with _ | m
    · omega
    · dsimp only
      norm_num
  · intro e k hk hrl hke
    rw [perform, performAux_otherError behav n active e n 0 none k (Nat.zero_le k)
      (by omega) (fun i h1 h2 => hrl i h2) hke]
    norm_num

/-- Witness for C5: with 2 backends both rate-limiting (errors `i`), the call
fails with backend `(0+1)%2 = 1`'s error and leaves `activeIndex = 0`; with
backend 0 rate-limiting and backend 1 throwing a non-429 error `7`, the call
stops at backend 1 and propagates `7`. -/
theorem perform_exhausted_rotation_witness :
    perform (fun i => .rateLimited i) 2 0 =
      ⟨0, (List.range' 0 2).map (fun i => (0 + i) % 2), .error (some 1)⟩ ∧
    perform (fun i => if i = 0 then .rateLimited 5 else .otherError 7) 2 0 =
      ⟨0, (List.range' 0 (1 + 1)).map (fun i => (0 + i) % 2), .error (some 7)⟩ := by
  constructor
  · exact (perform_exhausted_rotation (fun i => .rateLimited i) 2 0 (fun i => i)).1
      (by decide) (by decide)
  · exact (perform_exhausted_rotation
      (fun i => if i = 0 then .rateLimited 5 else .otherError 7) 2 0 (fun _ => 0)).2
      7 1 (by decide) (fun i hi => ⟨5, by interval_cases i; rfl⟩) (by decide)

/-! ## Risk classifier
(src/unnamed/part_003 `findLiquidatablePositions`, lines 546-567, and
src/src/monitor/positions.ts lines 278-296)

Both files classify with the same comparison chain over the three
thresholds (`minHealthFactor` = liquidation boundary,
`highFrequencyHealthFactorCheck` = high-frequency boundary,
`minHealthFactorThreshold` = normal boundary):

    if (hf >= minHealthFactorThreshold) { ignore }
    else if (hf <= minHealthFactorThreshold && hf >= highFrequencyHealthFactorCheck) { normal }
    else if (hf <= highFrequencyHealthFactorCheck && hf >= minHealthFactor) { highfreq }
    else { liquidatable candidate }

part_003 compares fixed-point `bigint` health factors (embedded here as
`Int`); positions.ts runs the identical chain on floats. -/

/-- The four monitoring urgency tiers. -/
inductive Tier where
  | healthy
  | normalWatch
  | highFreqWatch
  | liquidatableCandidate
  deriving Repr, DecidableEq

/-- The classification chain of `findLiquidatablePositions`, verbatim from
the source's if/else-if cascade. -/
def classifyHealth (hf minHealthFactor highFrequencyHealthFactorCheck
    minHealthFactorThreshold : Int) : Tier :=
  if hf ≥ minHealthFactorThreshold then
    .healthy
  else if hf ≤ minHealthFactorThreshold ∧ hf ≥ highFrequencyHealthFactorCheck then
    .normalWatch
  else if hf ≤ highFrequencyHealthFactorCheck ∧ hf ≥ minHealthFactor then
    .highFreqWatch
  else
    .liquidatableCandidate

/-- The closed-lower/open-upper band convention of spec §4.3, written as the
claim states it: `hf < liquidationBoundary` ↦ liquidatable-candidate,
`liquidationBoundary ≤ hf < highFreqBoundary` ↦ high-freq-watch,
`highFreqBoundary ≤ hf < normalBoundary` ↦ normal-watch,
`normalBoundary ≤ hf` ↦ healthy. -/
def tierBand (hf liquidationBoundary highFreqBoundary normalBoundary : Int) : Tier :=
  if hf < liquidationBoundary then .liquidatableCandidate
  else if hf < highFreqBoundary then .highFreqWatch
  else if hf < normalBoundary then .normalWatch
  else .healthy

/-- Claim C6: for every fixed-point health measure and thresholds with
`liquidationBoundary < highFreqBoundary < normalBoundary`, the source's
classification chain assigns exactly the tier of the closed-lower/open-upper
band partition — so it is total, every value (boundary values included)
falls in exactly one band, with no gap and no overlap. -/
theorem classifyHealth_eq_tierBand (hf liq highFreq normal : Int)
    (h1 : liq < highFreq) (h2 : highFreq < normal) :
    classifyHealth hf liq highFreq normal = tierBand hf liq highFreq normal := by
  unfold classifyHealth tierBand
  split_ifs <;> first | rfl | omega

/-- Witness for C6 at the production thresholds (`1e18 < 1.01e18 < 1.05e18`,
part_003 constructor) and a boundary health measure `hf = 1.01e18`: both the
source chain and the band partition classify it as normal-watch. -/
theorem classifyHealth_eq_tierBand_witness :
    classifyHealth 1010000000000000000 1000000000000000000 1010000000000000000
        1050000000000000000 =
      tierBand 1010000000000000000 1000000000000000000 1010000000000000000
        1050000000000000000 ∧
    classifyHealth 1010000000000000000 1000000000000000000 1010000000000000000
        1050000000000000000 = .normalWatch := by
  constructor
  · exact classifyHealth_eq_tierBand _ _ _ _ (by decide) (by decide)
  · decide

/-! ## scripts/watchlist_worker.ts: `hfToDb`

`hfToDb(hfWad)` returns `null` for `hfWad < 0n` or
`hfWad > 10n ** 38n - 1n`, and otherwise `ethers.formatUnits(hfWad, 18)`.
`formatUnits` (ethers v6) renders the exact decimal string of
`hfWad / 10^18`: it writes the digits of `hfWad`, left-pads with zeros to at
least 19 digits, inserts the decimal point before the last 18 digits, trims
leading zeros of the whole part down to one digit and trims trailing zeros
of the fractional part down to one digit.  The model below builds the same
string from the quotient/remainder by `10^18`; padding/trimming are the
same list operations. -/

/-- Little-endian base-10 digits of `n` (empty for `0`), with explicit fuel
so that the recursion is structural and kernel-evaluable. -/
def digitsLEAux : Nat → Nat → List Nat
  | 0, _ => []
  | fuel + 1, n => if n = 0 then [] else n % 10 :: digitsLEAux fuel (n / 10)

/-- Little-endian base-10 digits of `n`; `n` itself is enough fuel. -/
def digitsLE (n : Nat) : List Nat :=
  digitsLEAux n n

/-- Value of a little-endian digit list. -/
def digitsVal (L : List Nat) : Nat :=
  L.foldr (fun d r => d + 10 * r) 0

/-- The ASCII digit character for `d`. -/
def digitChar (d : Nat) : Char :=
  Char.ofNat (48 + d)

/-- Render a little-endian digit list as most-significant-first characters. -/
def renderLE (L : List Nat) : List Char :=
  (L.map digitChar).reverse

/-- `10^18`, the fixed-point scale of the health factor (wad). -/
def E18 : Nat :=
  10 ^ 18

/-- `ethers.formatUnits(v, 18)` for a nonnegative wad `v`: the exact decimal
string of `v / 10^18`, whole part without leading zeros (at least one
digit), fractional part with trailing zeros trimmed (at least one digit). -/
def formatUnits18 (v : Nat) : String :=
  let fracLE := digitsLE (v % E18)
  let fracPadLE := fracLE ++ List.replicate (18 - fracLE.length) 0
  let fracTrimLE := fracPadLE.dropWhile (· == 0)
  let fracShowLE := if fracTrimLE.isEmpty then [0] else fracTrimLE
  let wholeLE := digitsLE (v / E18)
  let wholeShowLE := if wholeLE.isEmpty then [0] else wholeLE
  ⟨renderLE wholeShowLE ++ '.' :: renderLE fracShowLE⟩

/-- `HF_DB_MAX_WAD = 10n ** 38n - 1n` from scripts/watchlist_worker.ts: the
largest wad representable in the store's `numeric(38,18)` column. -/
def HF_DB_MAX_WAD : Int :=
  10 ^ 38 - 1

/-- `hfToDb` from scripts/watchlist_worker.ts: `null` when the wad is
negative or exceeds `HF_DB_MAX_WAD` (treated as infinite/unrepresentable),
otherwise `ethers.formatUnits(hfWad, 18)`. -/
def hfToDb (hfWad : Int) : Option String :=
  if hfWad < 0 then none
  else if hfWad > HF_DB_MAX_WAD then none
  else some (formatUnits18 hfWad.toNat)

/-- Big-endian value of a character list read as base-10 digits. -/
def charsVal (l : List Char) : Nat :=
  l.foldl (fun a c => a * 10 + (c.toNat - 48)) 0

/-- Parse a decimal string `"W.F"` (at most 18 fractional digits) back into
an 18-decimals fixed-point integer, `parseUnits`-style:
`W * 10^18 + F * 10^(18 - |F|)`.  Used to state that `formatUnits18` is an
exact representation. -/
def parseUnits18 (s : String) : Option Nat :=
  match s.data.span (· != '.') with
  | (w, c :: f) =>
    if c = '.' ∧ f ≠ [] ∧ f.length ≤ 18 then
      some (charsVal w * E18 + charsVal f * 10 ^ (18 - f.length))
    else none
  | (_, []) => none

theorem digitsLEAux_val (fuel : Nat) :
    ∀ n, n ≤ fuel → digitsVal (digitsLEAux fuel n) = n := by
  induction fuel with
  | zero =>
    intro n hn
    have : n = 0 := by omega
    subst this
    rfl
  | succ fuel ih =>
    intro n hn
    unfold digitsLEAux
    by_cases h0 : n = 0
    · rw [if_pos h0, h0]; rfl
    · rw [if_neg h0]
      have hdiv : n / 10 < n := Nat.div_lt_self (by omega) (by norm_num)
      have : digitsVal (n % 10 :: digitsLEAux fuel (n / 10)) =
          n % 10 + 10 * digitsVal (digitsLEAux fuel (n / 10)) := rfl
      rw [this, ih (n / 10) (by omega)]
      omega

theorem digitsVal_digitsLE (n : Nat) : digitsVal (digitsLE n) = n :=
  digitsLEAux_val n n le_rfl

theorem digitsLEAux_lt10 (fuel : Nat) :
    ∀ n, ∀ d ∈ digitsLEAux fuel n, d < 10 := by
  induction fuel with
  | zero => intro n d hd; exact absurd hd (by simp [digitsLEAux])
  | succ fuel ih =>
    intro n d hd
    unfold digitsLEAux at hd
    by_cases h0 : n = 0
    · rw [if_pos h0] at hd; exact absurd hd (by simp)
    · rw [if_neg h0] at hd
      rcases List.mem_cons.mp hd with h | h
      · subst h; exact Nat.mod_lt n (by norm_num)
      · exact ih (n / 10) d h

theorem digitsLEAux_length (fuel : Nat) :
    ∀ n k, n < 10 ^ k → (digitsLEAux fuel n).length ≤ k := by
  induction fuel with
  | zero => intro n k _; simp [digitsLEAux]
  | succ fuel ih =>
    intro n k hk
    unfold digitsLEAux
    by_cases h0 : n = 0
    · rw [if_pos h0]; simp
    · rw [if_neg h0]
      rcases k with _ | k
      · omega
      · have : n / 10 < 10 ^ k := by
          rw [Nat.div_lt_iff_lt_mul (by norm_num)]
          calc n < 10 ^ (k + 1) := hk
            _ = 10 ^ k * 10 := by ring
        simpa using Nat.succ_le_succ (ih (n / 10) k this)

theorem digitsVal_append_replicate_zero (L : List Nat) (m : Nat) :
    digitsVal (L ++ List.replicate m 0) = digitsVal L := by
  induction L with
  | nil =>
    simp only [List.nil_append]
    induction m with
    | zero => rfl
    | succ m ihm =>
      rw [List.replicate_succ]
      show 0 + 10 * digitsVal (List.replicate m 0) = 0
      rw [ihm]
      rfl
  | cons d L ihl =>
    show d + 10 * digitsVal (L ++ List.replicate m 0) = d + 10 * digitsVal L
    rw [ihl]

theorem digitsVal_dropWhile_zero (L : List Nat) :
    digitsVal L =
      digitsVal (L.dropWhile (· == 0)) *
        10 ^ (L.length - (L.dropWhile (· == 0)).length) := by
  induction L with
  | nil => rfl
  | cons d L ihl =>
    rw [List.dropWhile_cons]
    by_cases hd : d = 0
    · subst hd
      simp only [beq_self_eq_true, if_pos]
      have hlen : (L.dropWhile (· == 0)).length ≤ L.length :=
        (List.dropWhile_sublist (· == 0)).length_le
      show 0 + 10 * digitsVal L = _
      rw [Nat.zero_add, ihl,
        show (0 :: L : List Nat).length - (L.dropWhile (· == 0)).length =
          (L.length - (L.dropWhile (· == 0)).length) + 1 from by
            simp only [List.length_cons]; omega,
        pow_succ]
      ring
    · rw [if_neg (by simpa using hd)]
      simp

theorem digitChar_toNat (d : Nat) (h : d < 10) : (digitChar d).toNat = 48 + d := by
  interval_cases d <;> rfl

theorem digitChar_ne_dot (d : Nat) (h : d < 10) : (digitChar d != '.') = true := by
  interval_cases d <;> rfl

theorem renderLE_ne_dot (L : List Nat) (h : ∀ d ∈ L, d < 10) :
    ∀ c ∈ renderLE L, (c != '.') = true := by
  intro c hc
  rcases List.mem_map.mp (List.mem_reverse.mp hc) with ⟨d, hd, hdc⟩
  rw [← hdc]
  exact digitChar_ne_dot d (h d hd)

theorem charsVal_renderLE (L : List Nat) (h : ∀ d ∈ L, d < 10) :
    charsVal (renderLE L) = digitsVal L := by
  induction L with
  | nil => rfl
  | cons d L ihl =>
    have hrender : renderLE (d :: L) = renderLE L ++ [digitChar d] := by
      unfold renderLE
      rw [List.map_cons, List.reverse_cons]
    rw [hrender]
    unfold charsVal
    rw [List.foldl_append]
    have hd10 : d < 10 := h d (List.mem_cons_self d L)
    show charsVal (renderLE L) * 10 + ((digitChar d).toNat - 48) = digitsVal (d :: L)
    rw [digitChar_toNat d hd10, ihl (fun x hx => h x (List.mem_cons_of_mem d hx))]
    show digitsVal L * 10 + (48 + d - 48) = d + 10 * digitsVal L
    omega

theorem takeWhile_all_append {α : Type} (p : α → Bool) (w r : List α) (x : α)
    (hw : ∀ c ∈ w, p c = true) (hx : p x = false) :
    (w ++ x :: r).takeWhile p = w := by
  induction w with
  | nil => simp [List.takeWhile_cons, hx]
  | cons c w ihw =>
    rw [List.cons_append, List.takeWhile_cons, hw c (List.mem_cons_self c w),
      ihw (fun a ha => hw a (List.mem_cons_of_mem c ha))]
    simp

theorem dropWhile_all_append {α : Type} (p : α → Bool) (w r : List α) (x : α)
    (hw : ∀ c ∈ w, p c = true) (hx : p x = false) :
    (w ++ x :: r).dropWhile p = x :: r := by
  induction w with
  | nil => simp [List.dropWhile_cons, hx]
  | cons c w ihw =>
    rw [List.cons_append, List.dropWhile_cons, hw c (List.mem_cons_self c w)]
    simpa using ihw (fun a ha => hw a (List.mem_cons_of_mem c ha))

theorem parseUnits18_render (W F : List Nat)
    (hW : ∀ d ∈ W, d < 10) (hF : ∀ d ∈ F, d < 10)
    (hFne : F ≠ []) (hFlen : F.length ≤ 18) :
    parseUnits18 ⟨renderLE W ++ '.' :: renderLE F⟩ =
      some (digitsVal W * E18 + digitsVal F * 10 ^ (18 - F.length)) := by
  unfold parseUnits18
  show (match (renderLE W ++ '.' :: renderLE F).span (· != '.') with
    | (w, c :: f) =>
      if c = '.' ∧ f ≠ [] ∧ f.length ≤ 18 then
        some (charsVal w * E18 + charsVal f * 10 ^ (18 - f.length))
      else none
    | (_, []) => none) = _
  rw [List.span_eq_take_drop,
    takeWhile_all_append (· != '.') (renderLE W) (renderLE F) '.'
      (renderLE_ne_dot W hW) rfl,
    dropWhile_all_append (· != '.') (renderLE W) (renderLE F) '.'
      (renderLE_ne_dot W hW) rfl]
  have hflen : (renderLE F).length = F.length := by
    unfold renderLE
    rw [List.length_reverse, List.length_map]
  have hfne : renderLE F ≠ [] := by
    intro hnil
    exact hFne (by simpa [hflen, List.length_eq_zero] using congrArg List.length hnil)
  dsimp only
  rw [if_pos ⟨rfl, hfne, by rw [hflen]; exact hFlen⟩,
    charsVal_renderLE W hW, charsVal_renderLE F hF, hflen]

theorem digitsVal_ifEmpty (L : List Nat) :
    digitsVal (if L.isEmpty then [0] else L) = digitsVal L := by
  cases L with
  | nil => rfl
  | cons d L => rfl

/-- Exactness of `formatUnits18`: parsing the rendered string back at 18
decimals recovers the wad exactly (no rounding anywhere). -/
theorem parseUnits18_formatUnits18 (v : Nat) :
    parseUnits18 (formatUnits18 v) = some v := by
  have hE : 0 < E18 := by norm_num [E18]
  have hmod : v % E18 < E18 := Nat.mod_lt v hE
  have hlenF : (digitsLE (v % E18)).length ≤ 18 :=
    digitsLEAux_length _ _ 18 (by simpa [E18] using hmod)
  have hFdig : ∀ d ∈ digitsLE (v % E18) ++
      List.replicate (18 - (digitsLE (v % E18)).length) 0, d < 10 := by
    intro d hd
    rcases List.mem_append.mp hd with h | h
    · exact digitsLEAux_lt10 _ _ d h
    · have := List.eq_of_mem_replicate h
      omega
  have hpadlen : (digitsLE (v % E18) ++
      List.replicate (18 - (digitsLE (v % E18)).length) 0).length = 18 := by
    rw [List.length_append, List.length_replicate]
    omega
  have hpadval : digitsVal (digitsLE (v % E18) ++
      List.replicate (18 - (digitsLE (v % E18)).length) 0) = v % E18 := by
    rw [digitsVal_append_replicate_zero, digitsVal_digitsLE]
  have htrimval := digitsVal_dropWhile_zero (digitsLE (v % E18) ++
    List.replicate (18 - (digitsLE (v % E18)).length) 0)
  rw [hpadval, hpadlen] at htrimval
  have htrimlen : ((digitsLE (v % E18) ++
      List.replicate (18 - (digitsLE (v % E18)).length) 0).dropWhile (· == 0)).length ≤ 18 := by
    calc ((digitsLE (v % E18) ++
        List.replicate (18 - (digitsLE (v % E18)).length) 0).dropWhile (· == 0)).length
        ≤ (digitsLE (v % E18) ++
          List.replicate (18 - (digitsLE (v % E18)).length) 0).length :=
          (List.dropWhile_sublist (· == 0)).length_le
      _ = 18 := hpadlen
  have htrimdig : ∀ d ∈ (digitsLE (v % E18) ++
      List.replicate (18 - (digitsLE (v % E18)).length) 0).dropWhile (· == 0), d < 10 :=
    fun d hd => hFdig d ((List.dropWhile_sublist (· == 0)).mem hd)
  have hWdig : ∀ d ∈ (if (digitsLE (v / E18)).isEmpty then [0] else digitsLE (v / E18)),
      d < 10 := by
    intro d hd
    by_cases h : (digitsLE (v / E18)).isEmpty
    · rw [if_pos h] at hd
      rcases List.mem_singleton.mp hd with rfl
      omega
    · rw [if_neg h] at hd
      exact digitsLEAux_lt10 _ _ d hd
  have hdm : v / E18 * E18 + v % E18 = v := Nat.div_add_mod' v E18
  unfold formatUnits18
  dsimp only
  by_cases htrim : ((digitsLE (v % E18) ++
      List.replicate (18 - (digitsLE (v % E18)).length) 0).dropWhile (· == 0)).isEmpty = true
  · rw [if_pos htrim]
    have htrimnil : (digitsLE (v % E18) ++
        List.replicate (18 - (digitsLE (v % E18)).length) 0).dropWhile (· == 0) = [] :=
      List.isEmpty_iff.mp htrim
    rw [htrimnil] at htrimval
    have hfrac0 : v % E18 = 0 := by simpa using htrimval
    rw [parseUnits18_render _ _ hWdig
      (by intro d hd; rcases List.mem_singleton.mp hd with rfl; omega)
      (by simp) (by simp)]
    rw [digitsVal_ifEmpty, digitsVal_digitsLE, Option.some.injEq]
    show v / E18 * E18 + digitsVal [0] * 10 ^ (18 - 1) = v
    have h0 : digitsVal [0] = 0 := rfl
    rw [h0, Nat.zero_mul]
    omega
  · rw [if_neg htrim]
    rw [parseUnits18_render _ _ hWdig htrimdig
      (by simpa [List.isEmpty_iff] using htrim) htrimlen]
    rw [digitsVal_ifEmpty, digitsVal_digitsLE, Option.some.injEq, ← htrimval]
    omega

/-- Number of characters after the decimal point of a rendered string. -/
def fracDigitCount (s : String) : Nat :=
  ((s.data.dropWhile (· != '.')).drop 1).length

/-- Counterexample to claim C10 as stated: `hfToDb(10^18)` is in range, but
the returned string is `"1.0"` — the exact value with trailing zeros
trimmed, which has 1 fractional digit, not an 18-fractional-digit string. -/
theorem hfToDb_not_18_digits :
    hfToDb (10 ^ 18) = some "1.0" ∧ fracDigitCount "1.0" = 1 ∧ (1 : Nat) ≠ 18 := by
  refine ⟨?_, rfl, by decide⟩
  rfl

/-- Claim C10 (amended): `hfToDb` is total and returns `none` exactly when
`hfWad < 0` or `hfWad > 10^38 - 1`; otherwise it returns the exact decimal
string for `hfWad` at 18 decimals with trailing fractional zeros trimmed —
parsing the string back at 18 decimals recovers `hfWad` exactly. -/
theorem hfToDb_spec (h : Int) :
    (hfToDb h = none ↔ h < 0 ∨ HF_DB_MAX_WAD < h) ∧
    (∀ s, hfToDb h = some s → ∃ n : Nat, (n : Int) = h ∧ parseUnits18 s = some n) := by
  unfold hfToDb
  by_cases h1 : h < 0
  · rw [if_pos h1]
    exact ⟨⟨fun _ => .inl h1, fun _ => rfl⟩, by simp⟩
  · rw [if_neg h1]
    by_cases h2 : h > HF_DB_MAX_WAD
    · rw [if_pos h2]
      exact ⟨⟨fun _ => .inr h2, fun _ => rfl⟩, by simp⟩
    · rw [if_neg h2]
      refine ⟨⟨fun hn => absurd hn (by simp), fun hc => ?_⟩, fun s hs => ?_⟩
      · rcases hc with hc | hc
        · exact absurd hc h1
        · exact absurd hc h2
      · injection hs with hs
        exact ⟨h.toNat, Int.toNat_of_nonneg (by omega),
          by rw [← hs]; exact parseUnits18_formatUnits18 _⟩

/-- Witness for C10's amended claim at `hfWad = 10^18`: the stored string
`"1.0"` parses back to exactly `10^18`. -/
theorem hfToDb_spec_witness :
    ∃ n : Nat, (n : Int) = (10 : Int) ^ 18 ∧ parseUnits18 "1.0" = some n :=
  (hfToDb_spec (10 ^ 18)).2 "1.0" rfl

/-! ## scripts/watchlist_worker.ts: per-account tick update and
`updateMonitorState` -/

/-- The two worker modes of `runWatchlistMonitor`. -/
inductive Mode where
  | highfreq
  | normal
  deriving Repr, DecidableEq

/-- `mode === "highfreq" ? 30 : 300`: the reschedule interval in seconds
used for `nextCheckSeconds` in `tick`. -/
def tierSeconds : Mode → Nat
  | .highfreq => 30
  | .normal => 300

/-- One decoded `getUserAccountData` slot of the multicall batch. -/
structure AccountSnapshot where
  totalCollateralBase : Int
  totalDebtBase : Int
  healthFactor : Int
  deriving Repr, DecidableEq

/-- The argument record of `updateMonitorState` (optional fields as in the
TypeScript signature). -/
structure UpdateArgs where
  hf : Option String := none
  status : Option String := none
  error : Option String := none
  nextCheckSeconds : Nat
  deriving Repr, DecidableEq

/-- The `updateMonitorState` call (or absence of one) that `tick` issues for
one due account, from scripts/watchlist_worker.ts lines 222-252:
`!account` ⇒ an error-only update; `hfToDb(hfWad) === null` ⇒ `continue`
(no call at all); otherwise an update carrying the formatted health factor. -/
def tickAccountUpdate (account : Option AccountSnapshot) (mode : Mode) :
    Option UpdateArgs :=
  match account with
  | none =>
    some { hf := none, status := none, error := some "multicall-failed",
           nextCheckSeconds := tierSeconds mode }
  | some a =>
    match hfToDb a.healthFactor with
    | none => none
    | some s =>
      some { hf := some s, status := none, error := none,
             nextCheckSeconds := tierSeconds mode }

/-- Counterexample to claim C7 as stated: for an account whose snapshot read
succeeded but whose health factor overflows the representable range
(`healthFactor = 10^38 > 10^38 - 1`), `tick` issues no `recordResult` call at
all — the next check time is not updated either, the account's row is left
untouched for this tick. -/
theorem tick_no_update_on_unrepresentable_hf :
    tickAccountUpdate (some ⟨0, 0, 10 ^ 38⟩) Mode.highfreq = none := rfl

/-- Claim C7 (amended): for an account whose snapshot read succeeded, the
health value and next check time (`nextCheckSeconds = tierSeconds mode`) are
updated unconditionally whenever the health measure is representable
(`hfToDb ≠ null`), regardless of tier; but when `hfToDb` returns `null`
(negative or overflowing measure) the account is skipped entirely — no
update of any kind, not just no health value.  A failed snapshot read gets
an error-only update. -/
theorem tickAccountUpdate_spec (a : AccountSnapshot) (mode : Mode) :
    (∀ s, hfToDb a.healthFactor = some s →
      tickAccountUpdate (some a) mode =
        some { hf := some s, status := none, error := none,
               nextCheckSeconds := tierSeconds mode }) ∧
    (hfToDb a.healthFactor = none → tickAccountUpdate (some a) mode = none) ∧
    tickAccountUpdate none mode =
      some { hf := none, status := none, error := some "multicall-failed",
             nextCheckSeconds := tierSeconds mode } := by
  unfold tickAccountUpdate
  dsimp only
  exact ⟨fun s hs => by rw [hs], fun hn => by rw [hn], rfl⟩

/-- Witness for C7's amended claim: an account with `healthFactor = 10^18`
gets an unconditional update carrying `hf = "1.0"` and the 30-second
high-frequency reschedule. -/
theorem tickAccountUpdate_spec_witness :
    tickAccountUpdate (some ⟨5, 3, 10 ^ 18⟩) Mode.highfreq =
      some { hf := some "1.0", status := none, error := none,
             nextCheckSeconds := 30 } :=
  (tickAccountUpdate_spec ⟨5, 3, 10 ^ 18⟩ Mode.highfreq).1 "1.0" rfl

/-- The persisted monitoring row of one account
(`borrower_monitor_state`). -/
structure MonitorRow where
  lastCheckAt : Option Nat
  lastHealthFactor : Option String
  lastStatus : String
  lastError : Option String
  nextCheckAt : Nat
  deriving Repr, DecidableEq

/-- `updateMonitorState` from scripts/watchlist_worker.ts lines 145-164: the
UPDATE sets `last_check_at = now()`, `last_health_factor = $2`
(`args.hf ?? null`, unconditionally), `last_status = COALESCE($3,
last_status)` (only `status` is preserved when absent), `last_error = $4`
(`args.error ?? null`, unconditionally) and `next_check_at = now() +
nextCheckSeconds`. -/
def updateMonitorState (row : MonitorRow) (now : Nat) (args : UpdateArgs) :
    MonitorRow :=
  { lastCheckAt := some now
    lastHealthFactor := args.hf
    lastStatus := args.status.getD row.lastStatus
    lastError := args.error
    nextCheckAt := now + args.nextCheckSeconds }

/-- Counterexample to claim C8 as stated: an error-only update (no health
measure provided) to a row holding `last_health_factor = "1.5"` overwrites
the stored health measure with NULL — the last known value is clobbered, not
left unchanged. -/
theorem updateMonitorState_clobbers_health :
    (updateMonitorState
        { lastCheckAt := none, lastHealthFactor := some "1.5",
          lastStatus := "highfreq-watchlist", lastError := none, nextCheckAt := 0 }
        100
        { hf := none, status := none, error := some "multicall-failed",
          nextCheckSeconds := 30 }).lastHealthFactor = none ∧
    (some "1.5" : Option String) ≠ none := by
  exact ⟨rfl, by simp⟩

/-- Claim C8 (amended): `updateMonitorState` sets `tier` (`last_status`)
only when provided — an update without a status leaves the stored status
unchanged via `COALESCE` — but `last_health_factor` and `last_error` are
overwritten unconditionally with the provided value or NULL, so an
error-only update clobbers the last known health measure to NULL. -/
theorem updateMonitorState_spec (row : MonitorRow) (now : Nat) (args : UpdateArgs) :
    (args.status = none →
      (updateMonitorState row now args).lastStatus = row.lastStatus) ∧
    (∀ st, args.status = some st →
      (updateMonitorState row now args).lastStatus = st) ∧
    (updateMonitorState row now args).lastHealthFactor = args.hf ∧
    (updateMonitorState row now args).lastError = args.error ∧
    (updateMonitorState row now args).lastCheckAt = some now ∧
    (updateMonitorState row now args).nextCheckAt = now + args.nextCheckSeconds := by
  unfold updateMonitorState
  exact ⟨fun h => by rw [h]; rfl, fun st h => by rw [h]; rfl, rfl, rfl, rfl, rfl⟩

/-- Witness for C8's amended claim: the error-only update of the
counterexample preserves the status but resets the stored health factor to
NULL. -/
theorem updateMonitorState_spec_witness :
    (updateMonitorState
        { lastCheckAt := none, lastHealthFactor := some "1.5",
          lastStatus := "highfreq-watchlist", lastError := none, nextCheckAt := 0 }
        100
        { hf := none, status := none, error := some "multicall-failed",
          nextCheckSeconds := 30 }).lastStatus = "highfreq-watchlist" ∧
    (updateMonitorState
        { lastCheckAt := none, lastHealthFactor := some "1.5",
          lastStatus := "highfreq-watchlist", lastError := none, nextCheckAt := 0 }
        100
        { hf := none, status := none, error := some "multicall-failed",
          nextCheckSeconds := 30 }).lastHealthFactor = none :=
  ⟨(updateMonitorState_spec _ 100 _).1 rfl, (updateMonitorState_spec _ 100 _).2.2.1⟩

/-! ## scripts/watchlist_worker.ts: per-account opportunity evaluation
(`tick`, lines 284-364)

For a liquidatable account the tick evaluates every (debt, collateral)
pair: it skips debts with zero `variableDebt` or falsy price (absent or
`0n`), skips collaterals with zero balance or falsy price, calls
`evaluateProfit` (closeFactorBps hardcoded `5000n`, dexFeeBps `30n`), skips
pairs with `repayAmount === 0n`, and keeps the pair with the greatest
`profitUsdApprox` (`!best || profitUsdApprox > best.profitUsd`).  If no
collateral or debt assets were found, or no pair survived, it records a
diagnostic "no opportunity" note; otherwise it persists the winning pair.
Assets are identified by opaque ids; the oracle price map is a function
`price : Nat → Option Int`; per-asset reads (decimals, bonus, balances) are
pure inputs carried on the rows. -/

/-- One debt position of the account (`getUserDebts` +
`getReserveConfigurationData` + price-map data for the debt asset). -/
structure DebtRow where
  asset : Nat
  variableDebt : Int
  decimals : Nat
  deriving Repr, DecidableEq

/-- One collateral position of the account (aToken `balanceOf` +
`getReserveConfigurationData` data for the collateral asset). -/
structure ColRow where
  asset : Nat
  balance : Int
  decimals : Nat
  liquidationBonusBps : Int
  deriving Repr, DecidableEq

/-- The `best` record of the tick's pair loop. -/
structure BestPair where
  debtAsset : Nat
  collateralAsset : Nat
  repayAmount : Int
  profitUsd : ℚ
  profitBase : Int
  deriving DecidableEq

/-- The `evaluateProfit` argument record built in the tick's inner loop
(`closeFactorBps = 5000n` placeholder, `dexFeeBps = 30n`). -/
def pairInputs (baseUnit : Int) (d : DebtRow) (c : ColRow)
    (priceDebt priceCol : Int) : ProfitInputs :=
  { debtAmount := d.variableDebt
    collateralBalance := c.balance
    priceDebt := priceDebt
    priceCol := priceCol
    baseUnit := baseUnit
    closeFactorBps := 5000
    liquidationBonusBps := c.liquidationBonusBps
    dexFeeBps := some 30
    extraCostBase := none
    debtDecimals := d.decimals
    colDecimals := c.decimals }

/-- The tick's inner loop over collaterals for one debt asset whose amount
and price already passed the debt-level guards.  A throw from
`evaluateProfit` propagates (`Except.error`), as it aborts the whole tick
in the source. -/
def scanCols (price : Nat → Option Int) (baseUnit : Int) (d : DebtRow)
    (priceDebt : Int) :
    List ColRow → Option BestPair → Except String (Option BestPair)
  | [], best => .ok best
  | c :: rest, best =>
    if c.balance = 0 then scanCols price baseUnit d priceDebt rest best
    else
      match price c.asset with
      | none => scanCols price baseUnit d priceDebt rest best
      | some priceCol =>
        if priceCol = 0 then scanCols price baseUnit d priceDebt rest best
        else
          match evaluateProfit (pairInputs baseUnit d c priceDebt priceCol) with
          | .error e => .error e
          | .ok r =>
            if r.repayAmount = 0 then scanCols price baseUnit d priceDebt rest best
            else
              match best with
              | none =>
                scanCols price baseUnit d priceDebt rest
                  (some ⟨d.asset, c.asset, r.repayAmount, r.profitUsdApprox, r.profitBase⟩)
              | some b =>
                if r.profitUsdApprox > b.profitUsd then
                  scanCols price baseUnit d priceDebt rest
                    (some ⟨d.asset, c.asset, r.repayAmount, r.profitUsdApprox, r.profitBase⟩)
                else scanCols price baseUnit d priceDebt rest best

/-- The tick's outer loop over debts (`debtAmount === 0n` and falsy-price
guards at the debt level, then the collateral loop). -/
def scanDebts (price : Nat → Option Int) (baseUnit : Int) (cols : List ColRow) :
    List DebtRow → Option BestPair → Except String (Option BestPair)
  | [], best => .ok best
  | d :: rest, best =>
    if d.variableDebt = 0 then scanDebts price baseUnit cols rest best
    else
      match price d.asset with
      | none => scanDebts price baseUnit cols rest best
      | some priceDebt =>
        if priceDebt = 0 then scanDebts price baseUnit cols rest best
        else
          match scanCols price baseUnit d priceDebt cols best with
          | .error e => .error e
          | .ok best2 => scanDebts price baseUnit cols rest best2

/-- Outcome of the tick's opportunity evaluation for one liquidatable
account: either the persisted winning pair, or a `saveOpportunity` carrying
only a diagnostic note. -/
inductive TickOutcome where
  | opportunity (b : BestPair)
  | noOpportunity (note : String)
  deriving DecidableEq

/-- The tick's account-level evaluation (watchlist_worker.ts lines
263-364): diagnostic note when no collaterals or no debts were found, the
pair scan otherwise, diagnostic note when no pair survived, else the
winning pair. -/
def tickEvaluate (price : Nat → Option Int) (baseUnit : Int)
    (collaterals : List ColRow) (debts : List DebtRow) :
    Except String TickOutcome :=
  if collaterals.length = 0 ∨ debts.length = 0 then
    .ok (.noOpportunity "hf<min but no collateral or no debt found")
  else
    match scanDebts price baseUnit collaterals debts none with
    | .error e => .error e
    | .ok none => .ok (.noOpportunity "hf<min but no repayable profitable pair found")
    | .ok (some best) => .ok (.opportunity best)

/-- Specification-side evaluation of a single (debt, collateral) pair: the
value the loop body would add for this pair, `none` when any of the loop's
guards skips it (or `evaluateProfit` throws). -/
def pairEval (price : Nat → Option Int) (baseUnit : Int) (d : DebtRow)
    (c : ColRow) : Option BestPair :=
  if d.variableDebt = 0 then none
  else
    match price d.asset with
    | none => none
    | some priceDebt =>
      if priceDebt = 0 then none
      else if c.balance = 0 then none
      else
        match price c.asset with
        | none => none
        | some priceCol =>
          if priceCol = 0 then none
          else
            match evaluateProfit (pairInputs baseUnit d c priceDebt priceCol) with
            | .error _ => none
            | .ok r =>
              if r.repayAmount = 0 then none
              else some ⟨d.asset, c.asset, r.repayAmount, r.profitUsdApprox, r.profitBase⟩

/-- `x` is dominated by `y`: whatever `x` holds, `y` holds something at
least as profitable. -/
def BestLE (x y : Option BestPair) : Prop :=
  ∀ b, x = some b → ∃ b2, y = some b2 ∧ b.profitUsd ≤ b2.profitUsd

theorem BestLE_refl (x : Option BestPair) : BestLE x x :=
  fun b hb => ⟨b, hb, le_refl _⟩

theorem BestLE_trans {x y z : Option BestPair} (h1 : BestLE x y) (h2 : BestLE y z) :
    BestLE x z := by
  intro b hb
  obtain ⟨b2, hb2, hle2⟩ := h1 b hb
  obtain ⟨b3, hb3, hle3⟩ := h2 b2 hb2
  exact ⟨b3, hb3, le_trans hle2 hle3⟩

theorem pairEval_pos (price : Nat → Option Int) (baseUnit : Int) (d : DebtRow)
    (pd : Int) (hd : ¬ d.variableDebt = 0) (hpd : price d.asset = some pd)
    (hpd0 : ¬ pd = 0) (c : ColRow) :
    pairEval price baseUnit d c =
      (if c.balance = 0 then none
       else
         match price c.asset with
         | none => none
         | some priceCol =>
           if priceCol = 0 then none
           else
             match evaluateProfit (pairInputs baseUnit d c pd priceCol) with
             | .error _ => none
             | .ok r =>
               if r.repayAmount = 0 then none
               else some ⟨d.asset, c.asset, r.repayAmount, r.profitUsdApprox,
                 r.profitBase⟩) := by
  unfold pairEval
  rw [if_neg hd, hpd]
  dsimp only
  rw [if_neg hpd0]

theorem scanCols_spec (price : Nat → Option Int) (baseUnit : Int) (d : DebtRow)
    (pd : Int) (hd : ¬ d.variableDebt = 0) (hpd : price d.asset = some pd)
    (hpd0 : ¬ pd = 0) :
    ∀ (cols : List ColRow) (best res : Option BestPair),
      scanCols price baseUnit d pd cols best = .ok res →
      BestLE best res ∧
      (∀ c ∈ cols, ∀ p, pairEval price baseUnit d c = some p →
        ∃ b2, res = some b2 ∧ p.profitUsd ≤ b2.profitUsd) ∧
      (∀ b2, res = some b2 →
        best = some b2 ∨ ∃ c ∈ cols, pairEval price baseUnit d c = some b2) := by
  intro cols
  induction cols with
  | nil =>
    intro best res h
    unfold scanCols at h
    injection h with h
    subst h
    exact ⟨BestLE_refl best, by simp, fun b2 hb2 => .inl hb2⟩
  | cons c rest ih =>
    intro best res h
    unfold scanCols at h
    have hpe := pairEval_pos price baseUnit d pd hd hpd hpd0 c
    by_cases hbal : c.balance = 0
    · rw [if_pos hbal] at h
      obtain ⟨h1, h2, h3⟩ := ih best res h
      refine ⟨h1, fun c' hc' p hp => ?_, fun b2 hb2 => ?_⟩
      · rcases List.mem_cons.mp hc' with rfl | hc'
        · rw [hpe, if_pos hbal] at hp
          exact absurd hp (by simp)
        · exact h2 c' hc' p hp
      · rcases h3 b2 hb2 with h | ⟨c', hc', hp⟩
        · exact .inl h
        · exact .inr ⟨c', List.mem_cons_of_mem c hc', hp⟩
    · rw [if_neg hbal] at h
      rw [hpe, if_neg hbal] at hpe
      rcases hpc : price c.asset with _ | pc
      · rw [hpc] at h
        have hpe3 : pairEval price baseUnit d c = none := by
          rw [pairEval_pos price baseUnit d pd hd hpd hpd0 c, if_neg hbal, hpc]
        obtain ⟨h1, h2, h3⟩ := ih best res h
        refine ⟨h1, fun c' hc' p hp => ?_, fun b2 hb2 => ?_⟩
        · rcases List.mem_cons.mp hc' with rfl | hc'
          · rw [hpe3] at hp
            exact absurd hp (by simp)
          · exact h2 c' hc' p hp
        · rcases h3 b2 hb2 with h | ⟨c', hc', hp⟩
          · exact .inl h
          · exact .inr ⟨c', List.mem_cons_of_mem c hc', hp⟩
      · rw [hpc] at h
        dsimp only at h
        have hpe2 : pairEval price baseUnit d c =
            (if pc = 0 then none
             else
               match evaluateProfit (pairInputs baseUnit d c pd pc) with
               | .error _ => none
               | .ok r =>
                 if r.repayAmount = 0 then none
                 else some ⟨d.asset, c.asset, r.repayAmount, r.profitUsdApprox,
                   r.profitBase⟩) := by
          rw [pairEval_pos price baseUnit d pd hd hpd hpd0 c, if_neg hbal, hpc]
        by_cases hpc0 : pc = 0
        · rw [if_pos hpc0] at h
          rw [if_pos hpc0] at hpe2
          obtain ⟨h1, h2, h3⟩ := ih best res h
          refine ⟨h1, fun c' hc' p hp => ?_, fun b2 hb2 => ?_⟩
          · rcases List.mem_cons.mp hc' with rfl | hc'
            · rw [hpe2] at hp
              exact absurd hp (by simp)
            · exact h2 c' hc' p hp
          · rcases h3 b2 hb2 with h | ⟨c', hc', hp⟩
            · exact .inl h
            · exact .inr ⟨c', List.mem_cons_of_mem c hc', hp⟩
        · rw [if_neg hpc0] at h
          rw [if_neg hpc0] at hpe2
          rcases hev : evaluateProfit (pairInputs baseUnit d c pd pc) with e | r
          · rw [hev] at h
            exact absurd h (by simp)
          · rw [hev] at h
            rw [hev] at hpe2
            dsimp only at h hpe2
            by_cases hrep : r.repayAmount = 0
            · rw [if_pos hrep] at h
              rw [if_pos hrep] at hpe2
              obtain ⟨h1, h2, h3⟩ := ih best res h
              refine ⟨h1, fun c' hc' p hp => ?_, fun b2 hb2 => ?_⟩
              · rcases List.mem_cons.mp hc' with rfl | hc'
                · rw [hpe2] at hp
                  exact absurd hp (by simp)
                · exact h2 c' hc' p hp
              · rcases h3 b2 hb2 with h | ⟨c', hc', hp⟩
                · exact .inl h
                · exact .inr ⟨c', List.mem_cons_of_mem c hc', hp⟩
            · rw [if_neg hrep] at h
              rw [if_neg hrep] at hpe2
              rcases best with _ | b
              · obtain ⟨h1, h2, h3⟩ := ih _ res h
                refine ⟨fun b' hb' => absurd hb' (by simp),
                  fun c' hc' p hp => ?_, fun b2 hb2 => ?_⟩
                · rcases List.mem_cons.mp hc' with rfl | hc'
                  · rw [hpe2] at hp
                    injection hp with hp
                    subst hp
                    exact h1 _ rfl
                  · exact h2 c' hc' p hp
                · rcases h3 b2 hb2 with h | ⟨c', hc', hp⟩
                  · injection h with h
                    exact .inr ⟨c, List.mem_cons_self c rest, by rw [hpe2, h]⟩
                  · exact .inr ⟨c', List.mem_cons_of_mem c hc', hp⟩
              · dsimp only at h
                by_cases hcmp : r.profitUsdApprox > b.profitUsd
                · rw [if_pos hcmp] at h
                  obtain ⟨h1, h2, h3⟩ := ih _ res h
                  refine ⟨fun b' hb' => ?_, fun c' hc' p hp => ?_, fun b2 hb2 => ?_⟩
                  · injection hb' with hb'
                    subst hb'
                    obtain ⟨b2, hb2, hle⟩ := h1 _ rfl
                    exact ⟨b2, hb2, le_trans (le_of_lt hcmp) hle⟩
                  · rcases List.mem_cons.mp hc' with rfl | hc'
                    · rw [hpe2] at hp
                      injection hp with hp
                      subst hp
                      exact h1 _ rfl
                    · exact h2 c' hc' p hp
                  · rcases h3 b2 hb2 with h | ⟨c', hc', hp⟩
                    · injection h with h
                      exact .inr ⟨c, List.mem_cons_self c rest, by rw [hpe2, h]⟩
                    · exact .inr ⟨c', List.mem_cons_of_mem c hc', hp⟩
                · rw [if_neg hcmp] at h
                  obtain ⟨h1, h2, h3⟩ := ih _ res h
                  refine ⟨h1, fun c' hc' p hp => ?_, fun b2 hb2 => ?_⟩
                  · rcases List.mem_cons.mp hc' with rfl | hc'
                    · rw [hpe2] at hp
                      injection hp with hp
                      subst hp
                      obtain ⟨b2, hb2, hle⟩ := h1 b rfl
                      exact ⟨b2, hb2, le_trans (not_lt.mp hcmp) hle⟩
                    · exact h2 c' hc' p hp
                  · rcases h3 b2 hb2 with h | ⟨c', hc', hp⟩
                    · exact .inl h
                    · exact .inr ⟨c', List.mem_cons_of_mem c hc', hp⟩

theorem scanDebts_spec (price : Nat → Option Int) (baseUnit : Int)
    (cols : List ColRow) :
    ∀ (debts : List DebtRow) (best res : Option BestPair),
      scanDebts price baseUnit cols debts best = .ok res →
      BestLE best res ∧
      (∀ d ∈ debts, ∀ c ∈ cols, ∀ p, pairEval price baseUnit d c = some p →
        ∃ b2, res = some b2 ∧ p.profitUsd ≤ b2.profitUsd) ∧
      (∀ b2, res = some b2 →
        best = some b2 ∨ ∃ d ∈ debts, ∃ c ∈ cols,
          pairEval price baseUnit d c = some b2) := by
  intro debts
  induction debts with
  | nil =>
    intro best res h
    unfold scanDebts at h
    injection h with h
    subst h
    exact ⟨BestLE_refl best, by simp, fun b2 hb2 => .inl hb2⟩
  | cons d rest ih =>
    intro best res h
    unfold scanDebts at h
    by_cases hvd : d.variableDebt = 0
    · rw [if_pos hvd] at h
      have hpe0 : ∀ c, pairEval price baseUnit d c = none := by
        intro c
        unfold pairEval
        rw [if_pos hvd]
      obtain ⟨h1, h2, h3⟩ := ih best res h
      refine ⟨h1, fun d' hd' c hc p hp => ?_, fun b2 hb2 => ?_⟩
      · rcases List.mem_cons.mp hd' with rfl | hd'
        · rw [hpe0 c] at hp
          exact absurd hp (by simp)
        · exact h2 d' hd' c hc p hp
      · rcases h3 b2 hb2 with hh | ⟨d', hd', c, hc, hp⟩
        · exact .inl hh
        · exact .inr ⟨d', List.mem_cons_of_mem d hd', c, hc, hp⟩
    · rw [if_neg hvd] at h
      rcases hpd : price d.asset with _ | pd
      · rw [hpd] at h
        have hpe0 : ∀ c, pairEval price baseUnit d c = none := by
          intro c
          unfold pairEval
          rw [if_neg hvd, hpd]
        obtain ⟨h1, h2, h3⟩ := ih best res h
        refine ⟨h1, fun d' hd' c hc p hp => ?_, fun b2 hb2 => ?_⟩
        · rcases List.mem_cons.mp hd' with rfl | hd'
          · rw [hpe0 c] at hp
            exact absurd hp (by simp)
          · exact h2 d' hd' c hc p hp
        · rcases h3 b2 hb2 with hh | ⟨d', hd', c, hc, hp⟩
          · exact .inl hh
          · exact .inr ⟨d', List.mem_cons_of_mem d hd', c, hc, hp⟩
      · rw [hpd] at h
        dsimp only at h
        by_cases hpd0 : pd = 0
        · rw [if_pos hpd0] at h
          have hpe0 : ∀ c, pairEval price baseUnit d c = none := by
            intro c
            unfold pairEval
            rw [if_neg hvd, hpd]
            dsimp only
            rw [if_pos hpd0]
          obtain ⟨h1, h2, h3⟩ := ih best res h
          refine ⟨h1, fun d' hd' c hc p hp => ?_, fun b2 hb2 => ?_⟩
          · rcases List.mem_cons.mp hd' with rfl | hd'
            · rw [hpe0 c] at hp
              exact absurd hp (by simp)
            · exact h2 d' hd' c hc p hp
          · rcases h3 b2 hb2 with hh | ⟨d', hd', c, hc, hp⟩
            · exact .inl hh
            · exact .inr ⟨d', List.mem_cons_of_mem d hd', c, hc, hp⟩
        · rw [if_neg hpd0] at h
          rcases hsc : scanCols price baseUnit d pd cols best with e | best2
          · rw [hsc] at h
            exact absurd h (by simp)
          · rw [hsc] at h
            dsimp only at h
            obtain ⟨s1, s2, s3⟩ :=
              scanCols_spec price baseUnit d pd hvd hpd hpd0 cols best best2 hsc
            obtain ⟨h1, h2, h3⟩ := ih best2 res h
            refine ⟨BestLE_trans s1 h1, fun d' hd' c hc p hp => ?_,
              fun b2 hb2 => ?_⟩
            · rcases List.mem_cons.mp hd' with rfl | hd'
              · obtain ⟨b2, hbest2, hle⟩ := s2 c hc p hp
                obtain ⟨b3, hres, hle2⟩ := h1 b2 hbest2
                exact ⟨b3, hres, le_trans hle hle2⟩
              · exact h2 d' hd' c hc p hp
            · rcases h3 b2 hb2 with hh | ⟨d', hd', c, hc, hp⟩
              · rcases s3 b2 hh with hh2 | ⟨c, hc, hp⟩
                · exact .inl hh2
                · exact .inr ⟨d, List.mem_cons_self d rest, c, hc, hp⟩
              · exact .inr ⟨d', List.mem_cons_of_mem d hd', c, hc, hp⟩

/-- Claim C9 (amended): for every liquidatable-candidate account, the tick
keeps the (debt, collateral) pair with maximum `profitUsdApprox` among the
qualifying pairs (nonzero debt, known nonzero prices, nonzero collateral
balance, nonzero computed repay) and persists that winning pair as an
Opportunity whenever one exists — regardless of any minimum profit
threshold, which the tick never consults; the diagnostic "no opportunity"
record is written exactly when no collateral or debt assets were found or
no pair qualifies. -/
theorem tickEvaluate_spec (price : Nat → Option Int) (baseUnit : Int)
    (cols : List ColRow) (debts : List DebtRow) :
    (∀ b, tickEvaluate price baseUnit cols debts = .ok (.opportunity b) →
      (∃ d ∈ debts, ∃ c ∈ cols, pairEval price baseUnit d c = some b) ∧
      (∀ d ∈ debts, ∀ c ∈ cols, ∀ p, pairEval price baseUnit d c = some p →
        p.profitUsd ≤ b.profitUsd)) ∧
    (∀ note, tickEvaluate price baseUnit cols debts = .ok (.noOpportunity note) →
      cols.length = 0 ∨ debts.length = 0 ∨
        ∀ d ∈ debts, ∀ c ∈ cols, pairEval price baseUnit d c = none) := by
  unfold tickEvaluate
  by_cases hempty : cols.length = 0 ∨ debts.length = 0
  · rw [if_pos hempty]
    refine ⟨fun b hb => absurd hb (by simp), fun note _ => ?_⟩
    rcases hempty with h | h
    · exact .inl h
    · exact .inr (.inl h)
  · rw [if_neg hempty]
    rcases hsd : scanDebts price baseUnit cols debts none with e | bb
    · dsimp only
      exact ⟨fun b hb => absurd hb (by simp), fun note hnote => absurd hnote (by simp)⟩
    · obtain ⟨h1, h2, h3⟩ := scanDebts_spec price baseUnit cols debts none bb hsd
      rcases bb with _ | best
      · dsimp only
        refine ⟨fun b hb => absurd hb (by simp), fun note _ => .inr (.inr ?_)⟩
        intro d hd c hc
        by_contra hne
        rcases Option.ne_none_iff_exists'.mp hne with ⟨p, hp⟩
        obtain ⟨b2, hb2, _⟩ := h2 d hd c hc p hp
        exact absurd hb2 (by simp)
      · dsimp only
        refine ⟨fun b hb => ?_, fun note hnote => absurd hnote (by simp)⟩
        have hbeq : best = b := by
          injection hb with hb
          injection hb with hb
        subst hbeq
        refine ⟨?_, fun d hd c hc p hp => ?_⟩
        · rcases h3 best rfl with hh | hh
          · exact absurd hh (by simp)
          · exact hh
        · obtain ⟨b2, hb2, hle⟩ := h2 d hd c hc p hp
          injection hb2 with hb2
          subst hb2
          exact hle

/-- The single debt position of the C9 scenario: asset 0, `variableDebt =
10^6` (a 6-decimals debt asset priced `1e8`). -/
def debtC9 : DebtRow :=
  ⟨0, 10 ^ 6, 6⟩

/-- The single collateral position of the C9 scenario: asset 1, balance
`10^18` (18 decimals, priced `2000e8`), liquidation bonus 9000 bps — below
par, so the seized value is smaller than the repaid value. -/
def colC9 : ColRow :=
  ⟨1, 10 ^ 18, 18, 9000⟩

/-- Oracle prices of the C9 scenario. -/
def priceC9 : Nat → Option Int :=
  fun a => if a = 0 then some (10 ^ 8) else if a = 1 then some (2000 * 10 ^ 8) else none

/-- The pair the tick selects in the C9 scenario: repay `500000`
(close-factor bound), `profitBase = 45000000 - 50000000 - 150000 =
-5150000` — a loss. -/
def bestC9 : BestPair :=
  ⟨0, 1, 500000, ((-5150000 : Int) : ℚ) / ((10 ^ 8 : Int) : ℚ), -5150000⟩

/-- Counterexample to claim C9 as stated: the tick has no minimum-profit
check — a pair whose estimated profit is negative (so it clears no
nonnegative profit threshold, in particular not the configured
`MIN_PROFIT_USD`) is still persisted as the winning Opportunity, not
replaced by a "no opportunity" record. -/
theorem tickEvaluate_no_threshold :
    tickEvaluate priceC9 (10 ^ 8) [colC9] [debtC9] = .ok (.opportunity bestC9) ∧
    bestC9.profitUsd < 0 := by
  refine ⟨rfl, ?_⟩
  show ((-5150000 : Int) : ℚ) / ((10 ^ 8 : Int) : ℚ) < 0
  apply div_neg_of_neg_of_pos <;> norm_num

/-- Witness for C9's amended claim at the scenario input: the persisted
pair is a qualifying pair and dominates every qualifying pair. -/
theorem tickEvaluate_spec_witness :
    (∃ d ∈ [debtC9], ∃ c ∈ [colC9],
      pairEval priceC9 (10 ^ 8) d c = some bestC9) ∧
    (∀ d ∈ [debtC9], ∀ c ∈ [colC9], ∀ p,
      pairEval priceC9 (10 ^ 8) d c = some p →
        p.profitUsd ≤ bestC9.profitUsd) :=
  (tickEvaluate_spec priceC9 (10 ^ 8) [colC9] [debtC9]).1 bestC9 rfl

end AaveLiq
